import Mathlib

/-!
Verification development for the token lifecycle core of the Outlook MCP
server (server.js).  The model covers:

- the token cache file format: a JSON object with up to three string
  fields (accessToken, refreshToken, expiresOn), written by
  JSON.stringify(tokenCache, null, 2) and read by JSON.parse
  (loadTokenCache / saveTokenCache, server.js lines 55 to 71);
- getAccessToken (server.js lines 73 to 102), with an explicit effect
  trace recording filesystem and network operations;
- the outlook_auth tool handler for the authorization-code branch
  (server.js lines 137 to 148);
- an interleaving model of two concurrent getAccessToken invocations,
  whose only suspension point is the awaited refresh-token exchange.

File contents are modelled as lists of characters.  The parser models
JSON.parse on the cache-file grammar: flat JSON objects whose values are
strings.  Valid JSON outside that grammar (arrays, numbers, nested
objects) is outside the model and treated as a parse failure.
-/

namespace OutlookMcp

/-! ### Characters and JSON string escaping -/

def dquote : Char := Char.ofNat 34

def obrace : Char := Char.ofNat 123

def cbrace : Char := Char.ofNat 125

/-- Lower-case hexadecimal digit, as produced by JSON.stringify for
control-character escapes. -/
def hexDigitChar (n : Nat) : Char :=
  if n < 10 then Char.ofNat (48 + n) else Char.ofNat (87 + n)

/-- Escape of a single character inside a JSON string literal, following
JSON.stringify: quote and backslash get a backslash escape, the named
control characters get their short escapes, remaining control characters
get a \u00xx escape, and everything else is emitted verbatim. -/
def escChar (c : Char) : List Char :=
  if c = dquote then ['\\', dquote]
  else if c = '\\' then ['\\', '\\']
  else if c = Char.ofNat 8 then ['\\', 'b']
  else if c = Char.ofNat 9 then ['\\', 't']
  else if c = Char.ofNat 10 then ['\\', 'n']
  else if c = Char.ofNat 12 then ['\\', 'f']
  else if c = Char.ofNat 13 then ['\\', 'r']
  else if c.toNat < 32 then
    ['\\', 'u', '0', '0', hexDigitChar (c.toNat / 16), hexDigitChar (c.toNat % 16)]
  else [c]

def escList : List Char → List Char
  | [] => []
  | c :: cs => escChar c ++ escList cs

/-! ### The persisted credential record

The in-memory tokenCache object of server.js, and equally the JSON
object stored in .mcp-outlook-token-cache.json.  A missing field is
JavaScript undefined, modelled as none. -/

structure TokenCache where
  accessToken : Option String
  refreshToken : Option String
  expiresOn : Option String
deriving DecidableEq

/-- The module-level initialisation of server.js line 53: let tokenCache = {}. -/
def emptyCache : TokenCache := ⟨none, none, none⟩

/-- The fields JSON.stringify serialises, in object insertion order;
undefined fields are omitted. -/
def presentFields (c : TokenCache) : List (String × String) :=
  (match c.accessToken with
   | some v => [("accessToken", v)]
   | none => []) ++
  (match c.refreshToken with
   | some v => [("refreshToken", v)]
   | none => []) ++
  (match c.expiresOn with
   | some v => [("expiresOn", v)]
   | none => [])

def renderField (k v : String) : List Char :=
  dquote :: escList k.data ++ dquote :: ':' :: ' ' :: dquote :: escList v.data ++ [dquote]

/-- Member list of the pretty-printed object: each member indented by two
spaces, members separated by a comma and a newline. -/
def renderFields : List (String × String) → List Char
  | [] => []
  | [(k, v)] => ' ' :: ' ' :: renderField k v
  | (k, v) :: rest => ' ' :: ' ' :: (renderField k v ++ ',' :: '\n' :: renderFields rest)

/-- JSON.stringify(tokenCache, null, 2), as written by saveTokenCache. -/
def renderTokenCache (c : TokenCache) : List Char :=
  match presentFields c with
  | [] => [obrace, cbrace]
  | fs => obrace :: '\n' :: (renderFields fs ++ '\n' :: [cbrace])

/-! ### Parsing (JSON.parse on the cache-file grammar) -/

def isWsChar (c : Char) : Bool :=
  c = ' ' || c = '\n' || c = Char.ofNat 13 || c = Char.ofNat 9

def skipWs : List Char → List Char
  | [] => []
  | c :: cs => if isWsChar c then skipWs cs else c :: cs

def hexVal (c : Char) : Option Nat :=
  if 48 ≤ c.toNat && c.toNat ≤ 57 then some (c.toNat - 48)
  else if 97 ≤ c.toNat && c.toNat ≤ 102 then some (c.toNat - 87)
  else if 65 ≤ c.toNat && c.toNat ≤ 70 then some (c.toNat - 55)
  else none

def consStr (c : Char) (r : Option (List Char × List Char)) : Option (List Char × List Char) :=
  r.map (fun p => (c :: p.1, p.2))

/-- Body of a JSON string literal, after the opening quote: returns the
decoded characters and the input remaining after the closing quote.
Unescaped control characters are rejected, as JSON.parse rejects them. -/
def parseStringBody : List Char → Option (List Char × List Char)
  | [] => none
  | c :: cs =>
    if c = dquote then some ([], cs)
    else if c = '\\' then
      match cs with
      | [] => none
      | e :: cs2 =>
        if e = dquote then consStr dquote (parseStringBody cs2)
        else if e = '\\' then consStr '\\' (parseStringBody cs2)
        else if e = '/' then consStr '/' (parseStringBody cs2)
        else if e = 'b' then consStr (Char.ofNat 8) (parseStringBody cs2)
        else if e = 't' then consStr (Char.ofNat 9) (parseStringBody cs2)
        else if e = 'n' then consStr (Char.ofNat 10) (parseStringBody cs2)
        else if e = 'f' then consStr (Char.ofNat 12) (parseStringBody cs2)
        else if e = 'r' then consStr (Char.ofNat 13) (parseStringBody cs2)
        else if e = 'u' then
          match cs2 with
          | h1 :: h2 :: h3 :: h4 :: cs3 =>
            match hexVal h1, hexVal h2, hexVal h3, hexVal h4 with
            | some a, some b, some c2, some d =>
              consStr (Char.ofNat (((a * 16 + b) * 16 + c2) * 16 + d)) (parseStringBody cs3)
            | _, _, _, _ => none
          | _ => none
        else none
    else if c.toNat < 32 then none
    else consStr c (parseStringBody cs)
termination_by structural cs => cs

/-- Member list of a JSON object, after the opening brace and any
whitespace.  The fuel argument bounds the number of members; the
top-level entry point supplies one unit of fuel per input character,
which is always sufficient. -/
def parseMembersAux : Nat → List Char → List (String × String) →
    Option (List (String × String) × List Char)
  | 0, _, _ => none
  | _ + 1, [], _ => none
  | fuel + 1, c :: cs1, acc =>
    if c = cbrace then some (acc.reverse, cs1)
    else if c = dquote then
      match parseStringBody cs1 with
      | none => none
      | some (k, r1) =>
        match skipWs r1 with
        | ':' :: r2 =>
          match skipWs r2 with
          | q :: r3 =>
            if q = dquote then
              match parseStringBody r3 with
              | none => none
              | some (v, r4) =>
                match skipWs r4 with
                | ',' :: r5 =>
                  match skipWs r5 with
                  | c3 :: r6 =>
                    if c3 = dquote then
                      parseMembersAux fuel (c3 :: r6) ((String.mk k, String.mk v) :: acc)
                    else none
                  | [] => none
                | c2 :: r5 =>
                  if c2 = cbrace then some (((String.mk k, String.mk v) :: acc).reverse, r5)
                  else none
                | [] => none
            else none
          | [] => none
        | _ => none
    else none

/-- Interpretation of the parsed member list as a tokenCache object:
later duplicates win, unknown keys are retained by JSON.parse but never
read by the program, so they are dropped here. -/
def applyMember (c : TokenCache) (kv : String × String) : TokenCache :=
  if kv.1 = "accessToken" then ⟨some kv.2, c.refreshToken, c.expiresOn⟩
  else if kv.1 = "refreshToken" then ⟨c.accessToken, some kv.2, c.expiresOn⟩
  else if kv.1 = "expiresOn" then ⟨c.accessToken, c.refreshToken, some kv.2⟩
  else c

/-- JSON.parse of the cache file restricted to the cache-file grammar:
a single object whose values are strings, with nothing but whitespace
around it.  Anything else is a parse failure. -/
def parseTokenCacheChars (cs : List Char) : Option TokenCache :=
  match skipWs cs with
  | [] => none
  | c :: cs1 =>
    if c = obrace then
      match parseMembersAux (cs.length + 1) (skipWs cs1) [] with
      | some (members, rest) =>
        match skipWs rest with
        | [] => some (members.foldl applyMember emptyCache)
        | _ :: _ => none
      | none => none
    else none

/-! ### Round-trip of JSON string escaping -/

theorem hexVal_hexDigitChar : ∀ n < 16, hexVal (hexDigitChar n) = some n := by decide

theorem parseStringBody_escChar (c : Char) (tail : List Char) :
    parseStringBody (escChar c ++ tail) = consStr c (parseStringBody tail) := by
  by_cases h1 : c = dquote
  · subst h1
    have h : escChar dquote ++ tail = '\\' :: dquote :: tail := by simp [escChar]
    rw [h, parseStringBody.eq_def]
    simp [dquote, consStr]
  by_cases h2 : c = '\\'
  · subst h2
    have h : escChar '\\' ++ tail = '\\' :: '\\' :: tail := by simp [escChar, dquote]
    rw [h, parseStringBody.eq_def]
    simp [dquote, consStr]
  by_cases h3 : c = Char.ofNat 8
  · subst h3
    have h : escChar (Char.ofNat 8) ++ tail = '\\' :: 'b' :: tail := by simp [escChar, dquote]
    rw [h, parseStringBody.eq_def]
    simp [dquote, consStr]
  by_cases h4 : c = Char.ofNat 9
  · subst h4
    have h : escChar (Char.ofNat 9) ++ tail = '\\' :: 't' :: tail := by simp [escChar, dquote]
    rw [h, parseStringBody.eq_def]
    simp [dquote, consStr]
  by_cases h5 : c = Char.ofNat 10
  · subst h5
    have h : escChar (Char.ofNat 10) ++ tail = '\\' :: 'n' :: tail := by
      simp [escChar, dquote]
    rw [h, parseStringBody.eq_def]
    simp [dquote, consStr]
  by_cases h6 : c = Char.ofNat 12
  · subst h6
    have h : escChar (Char.ofNat 12) ++ tail = '\\' :: 'f' :: tail := by
      simp [escChar, dquote]
    rw [h, parseStringBody.eq_def]
    simp [dquote, consStr]
  by_cases h7 : c = Char.ofNat 13
  · subst h7
    have h : escChar (Char.ofNat 13) ++ tail = '\\' :: 'r' :: tail := by
      simp [escChar, dquote]
    rw [h, parseStringBody.eq_def]
    simp [dquote, consStr]
  by_cases h8 : c.toNat < 32
  · have e1 : hexVal (hexDigitChar (c.toNat / 16)) = some (c.toNat / 16) :=
      hexVal_hexDigitChar _ (by omega)
    have e2 : hexVal (hexDigitChar (c.toNat % 16)) = some (c.toNat % 16) :=
      hexVal_hexDigitChar _ (Nat.mod_lt _ (by norm_num))
    have e0 : hexVal '0' = some 0 := rfl
    have h : escChar c ++ tail =
        '\\' :: 'u' :: '0' :: '0' ::
          hexDigitChar (c.toNat / 16) :: hexDigitChar (c.toNat % 16) :: tail := by
      simp [escChar, h1, h2, h3, h4, h5, h6, h7, h8]
    rw [h, parseStringBody.eq_def]
    simp [dquote, e0, e1, e2, consStr, Nat.div_add_mod', Char.ofNat_toNat]
  · have h : escChar c ++ tail = c :: tail := by
      simp [escChar, h1, h2, h3, h4, h5, h6, h7, h8]
    rw [h, parseStringBody.eq_def]
    simp [h1, h2, h8, consStr]

theorem parseStringBody_escList (s : List Char) (rest : List Char) :
    parseStringBody (escList s ++ dquote :: rest) = some (s, rest) := by
  induction s with
  | nil =>
    simp only [escList, List.nil_append]
    rw [parseStringBody.eq_def]
    simp
  | cons c s ih =>
    simp only [escList, List.append_assoc]
    rw [parseStringBody_escChar, ih]
    rfl

theorem stringMkData (s : String) : String.mk s.data = s := by
  cases s; rfl

/-! ### Decided character facts used when stepping the parser -/

theorem ws_space : isWsChar ' ' = true := by decide

theorem ws_newline : isWsChar '\n' = true := by decide

theorem not_ws_dquote : isWsChar dquote = false := by decide

theorem not_ws_colon : isWsChar ':' = false := by decide

theorem not_ws_comma : isWsChar ',' = false := by decide

theorem not_ws_cbrace : isWsChar cbrace = false := by decide

theorem not_ws_obrace : isWsChar obrace = false := by decide

theorem dquote_ne_cbrace : ¬dquote = cbrace := by decide

theorem cbrace_ne_comma : ¬cbrace = ',' := by decide

theorem skipWs_cons_ws {c : Char} (cs : List Char) (h : isWsChar c = true) :
    skipWs (c :: cs) = skipWs cs := by simp [skipWs, h]

theorem skipWs_cons_not_ws {c : Char} (cs : List Char) (h : isWsChar c = false) :
    skipWs (c :: cs) = c :: cs := by simp [skipWs, h]

/-- The rendered member list of a nonempty field list always starts, after
whitespace, with the opening quote of the first key. -/
theorem skipWs_renderFields_cons (k2 v2 : String) (fs2 : List (String × String))
    (tail0 : List Char) :
    ∃ r, skipWs (renderFields ((k2, v2) :: fs2) ++ tail0) = dquote :: r := by
  cases fs2 with
  | nil =>
    simp only [renderFields, renderField, List.cons_append, List.append_assoc,
      List.nil_append]
    rw [skipWs_cons_ws _ ws_space, skipWs_cons_ws _ ws_space,
      skipWs_cons_not_ws _ not_ws_dquote]
    exact ⟨_, rfl⟩
  | cons kv3 fs3 =>
    simp only [renderFields, renderField, List.cons_append, List.append_assoc,
      List.nil_append]
    rw [skipWs_cons_ws _ ws_space, skipWs_cons_ws _ ws_space,
      skipWs_cons_not_ws _ not_ws_dquote]
    exact ⟨_, rfl⟩

/-! ### Round-trip of the rendered member list -/

theorem parseMembersAux_render :
    ∀ (fs : List (String × String)) (acc : List (String × String)) (fuel : Nat),
      fs.length ≤ fuel →
      parseMembersAux (fuel + 1) (skipWs (renderFields fs ++ '\n' :: [cbrace])) acc =
        some (acc.reverse ++ fs, []) := by
  intro fs
  induction fs with
  | nil =>
    intro acc fuel h
    rw [show renderFields [] ++ '\n' :: [cbrace] = '\n' :: [cbrace] from rfl]
    rw [skipWs_cons_ws _ ws_newline, skipWs_cons_not_ws _ not_ws_cbrace]
    rw [parseMembersAux.eq_def]
    simp
  | cons kv fs ih =>
    obtain ⟨k, v⟩ := kv
    intro acc fuel h
    cases fs with
    | nil =>
      simp only [renderFields, renderField, List.cons_append, List.append_assoc,
        List.nil_append]
      rw [skipWs_cons_ws _ ws_space, skipWs_cons_ws _ ws_space,
        skipWs_cons_not_ws _ not_ws_dquote]
      rw [parseMembersAux.eq_def]
      simp only [dquote_ne_cbrace, if_false, ite_false, if_neg, not_false_eq_true,
        parseStringBody_escList]
      simp [parseStringBody_escList, skipWs_cons_ws, skipWs_cons_not_ws, ws_space,
        ws_newline, not_ws_colon, not_ws_dquote, not_ws_cbrace, cbrace_ne_comma,
        stringMkData]
    | cons kv2 fs2 =>
      obtain ⟨f2, rfl⟩ : ∃ f2, fuel = f2 + 1 := ⟨fuel - 1, by simp at h; omega⟩
      have H := ih ((k, v) :: acc) f2 (by simp at h ⊢; omega)
      obtain ⟨k2, v2⟩ := kv2
      obtain ⟨r6, hr⟩ := skipWs_renderFields_cons k2 v2 fs2 ('\n' :: [cbrace])
      rw [hr] at H
      simp only [renderFields, renderField, List.cons_append, List.append_assoc,
        List.nil_append]
      rw [skipWs_cons_ws _ ws_space, skipWs_cons_ws _ ws_space,
        skipWs_cons_not_ws _ not_ws_dquote]
      rw [parseMembersAux.eq_def]
      simp only [dquote_ne_cbrace, if_false, ite_false, if_neg, not_false_eq_true,
        parseStringBody_escList]
      simp [parseStringBody_escList, skipWs_cons_ws, skipWs_cons_not_ws, ws_space,
        ws_newline, not_ws_colon, not_ws_comma, not_ws_dquote, not_ws_cbrace,
        cbrace_ne_comma, stringMkData, hr, H]

theorem presentFields_length (c : TokenCache) : (presentFields c).length ≤ 3 := by
  obtain ⟨a, r, e⟩ := c
  cases a <;> cases r <;> cases e <;> simp [presentFields]

theorem applyMembers_presentFields (c : TokenCache) :
    (presentFields c).foldl applyMember emptyCache = c := by
  obtain ⟨a, r, e⟩ := c
  cases a <;> cases r <;> cases e <;> rfl

theorem parse_render_cache (c : TokenCache) :
    parseTokenCacheChars (renderTokenCache c) =
      some ((presentFields c).foldl applyMember emptyCache) := by
  match h : presentFields c with
  | [] =>
    unfold renderTokenCache
    rw [h]
    decide
  | (k, v) :: fs2 =>
    unfold renderTokenCache
    rw [h]
    have h3 : ((k, v) :: fs2).length ≤ 3 := by
      rw [← h]; exact presentFields_length c
    have hlen : ((k, v) :: fs2).length ≤
        (obrace :: '\n' :: (renderFields ((k, v) :: fs2) ++ '\n' :: [cbrace])).length := by
      have h4 : (obrace :: '\n' :: (renderFields ((k, v) :: fs2) ++
          '\n' :: [cbrace])).length = (renderFields ((k, v) :: fs2)).length + 4 := by
        simp
      omega
    unfold parseTokenCacheChars
    rw [skipWs_cons_not_ws _ not_ws_obrace]
    simp only []
    rw [skipWs_cons_ws _ ws_newline]
    rw [parseMembersAux_render ((k, v) :: fs2) [] _ hlen]
    simp [skipWs]

/-- Round trip at the level of parse and render: loading exactly what
saveTokenCache wrote recovers the record, for every record. -/
theorem parse_render (c : TokenCache) :
    parseTokenCacheChars (renderTokenCache c) = some c := by
  rw [parse_render_cache, applyMembers_presentFields]

/-! ### The token lifecycle (getAccessToken, server.js lines 73 to 102)

Effects record the externally visible operations: the existsSync check
and readFileSync of loadTokenCache, the writeFileSync of saveTokenCache,
and the two identity-provider exchanges.  Timestamps are integers
(milliseconds); dateVal models the JavaScript Date interpretation of the
stored expiresOn string, with none for an invalid date (whose comparisons
are all false). -/

inductive Eff where
  | fsExists
  | fsRead
  | fsWrite
  | netRefresh (rt : String)
  | netAuthCode (code : String)
deriving DecidableEq

/-- JavaScript truthiness of an optional string field: undefined and the
empty string are falsy. -/
def jsTruthy : Option String → Bool
  | none => false
  | some s => if s = "" then false else true

/-- JavaScript or-else on optional string fields, as in
result.refreshToken or-else tokenCache.refreshToken (server.js line 91). -/
def jsOr (a b : Option String) : Option String :=
  if jsTruthy a then a else b

/-- loadTokenCache (server.js lines 55 to 63): if the cache file exists,
parse it and replace the in-memory record; a parse failure is caught and
logged, leaving the in-memory record untouched. -/
def loadTokenCacheRun (file : Option (List Char)) (mem : TokenCache) :
    TokenCache × List Eff :=
  match file with
  | none => (mem, [Eff.fsExists])
  | some content =>
    match parseTokenCacheChars content with
    | some c => (c, [Eff.fsExists, Eff.fsRead])
    | none => (mem, [Eff.fsExists, Eff.fsRead])

/-- saveTokenCache (server.js lines 65 to 71): write the serialised
record, replacing the file. -/
def saveTokenCacheRun (mem : TokenCache) : Option (List Char) × List Eff :=
  (some (renderTokenCache mem), [Eff.fsWrite])

/-- The validity check of server.js line 77: tokenCache.accessToken and
tokenCache.expiresOn are truthy and the parsed expiry lies strictly in
the future.  There is no safety margin in the comparison. -/
def isValidToken (dateVal : String → Option Int) (now : Int) (c : TokenCache) : Bool :=
  jsTruthy c.accessToken && jsTruthy c.expiresOn &&
    (match c.expiresOn with
     | some s =>
       match dateVal s with
       | some t => decide (now < t)
       | none => false
     | none => false)

/-- The error thrown at server.js line 101; the only failure
getAccessToken ever surfaces. -/
def authErrMsg : String := "No valid authentication. Please run the authentication flow first."

/-- Process-visible state: the cache file content (none when absent) and
the in-memory tokenCache variable. -/
structure World where
  file : Option (List Char)
  mem : TokenCache
deriving DecidableEq

/-- Result of a successful msal token acquisition, as read by the code:
accessToken, optional refreshToken, optional expiresOn. -/
structure AuthResult where
  accessToken : String
  refreshToken : Option String
  expiresOn : Option String
deriving DecidableEq

/-- Classification of a failed exchange.  The code does not inspect the
error: both kinds reach the same catch block. -/
inductive AcqError where
  | invalidGrant
  | transient
deriving DecidableEq

inductive RefreshOutcome where
  | success (r : AuthResult)
  | failure (e : AcqError)

/-- getAccessToken (server.js lines 73 to 102): reload the cache file,
return the cached token if still valid, otherwise attempt a refresh
exchange when a refresh token is present; any exchange failure is caught
and the generic error thrown.  Returns the result, the final world and
the effect trace. -/
def getAccessTokenRun (dateVal : String → Option Int) (now : Int)
    (acquire : String → RefreshOutcome) (w : World) :
    Except String String × World × List Eff :=
  let load := loadTokenCacheRun w.file w.mem
  let mem1 := load.1
  if isValidToken dateVal now mem1 then
    (Except.ok (mem1.accessToken.getD ""), ⟨w.file, mem1⟩, load.2)
  else if jsTruthy mem1.refreshToken then
    let rt := mem1.refreshToken.getD ""
    match acquire rt with
    | RefreshOutcome.success r =>
      let mem2 : TokenCache := ⟨some r.accessToken, jsOr r.refreshToken mem1.refreshToken,
        r.expiresOn⟩
      (Except.ok r.accessToken, ⟨some (renderTokenCache mem2), mem2⟩,
        load.2 ++ [Eff.netRefresh rt, Eff.fsWrite])
    | RefreshOutcome.failure _ =>
      (Except.error authErrMsg, ⟨w.file, mem1⟩, load.2 ++ [Eff.netRefresh rt])
  else
    (Except.error authErrMsg, ⟨w.file, mem1⟩, load.2)

/-! ### The outlook_auth tool, authorization-code branch
(server.js lines 137 to 148) -/

inductive CodeOutcome where
  | success (r : AuthResult)
  | failure (e : AcqError)

def authSuccessMsg : String := "Authentication successful! You can now use other Outlook tools."

/-- outlook_auth with an authCode: exchange the code, then overwrite the
whole record with exactly the fields of the result; no fallback to the
previous refreshToken.  A rejected exchange propagates out of the handler
with the record unchanged. -/
def outlookAuthCodeRun (acquireByCode : String → CodeOutcome) (code : String) (w : World) :
    Except String String × World × List Eff :=
  match acquireByCode code with
  | CodeOutcome.success r =>
    let mem2 : TokenCache := ⟨some r.accessToken, r.refreshToken, r.expiresOn⟩
    (Except.ok authSuccessMsg, ⟨some (renderTokenCache mem2), mem2⟩,
      [Eff.netAuthCode code, Eff.fsWrite])
  | CodeOutcome.failure _ =>
    (Except.error "acquireTokenByCode rejected", w, [Eff.netAuthCode code])

/-! ### Two concurrent getAccessToken invocations

server.js runs on a single-threaded event loop; the only suspension
point inside getAccessToken is the awaited
msalClient.acquireTokenByRefreshToken call.  Each caller therefore
executes atomically from entry up to issuing the exchange (or returning
without one), suspends, and later atomically applies the outcome — whose
continuation re-reads the shared tokenCache variable (server.js line 91).
A schedule is a list of caller choices; each step runs the chosen
caller's next atomic segment against the shared world. -/

instance : DecidableEq (Except String String) := fun a b =>
  match a, b with
  | Except.ok x, Except.ok y =>
    if h : x = y then Decidable.isTrue (by rw [h])
    else Decidable.isFalse (by intro hc; cases hc; exact h rfl)
  | Except.error x, Except.error y =>
    if h : x = y then Decidable.isTrue (by rw [h])
    else Decidable.isFalse (by intro hc; cases hc; exact h rfl)
  | Except.ok x, Except.error y => Decidable.isFalse (by intro hc; cases hc)
  | Except.error x, Except.ok y => Decidable.isFalse (by intro hc; cases hc)

inductive CallerPhase where
  | start
  | awaiting (rt : String)
  | done (res : Except String String)
deriving DecidableEq

/-- One atomic segment of a single getAccessToken caller. -/
def stepCaller (dateVal : String → Option Int) (now : Int)
    (acquire : String → RefreshOutcome) (w : World) :
    CallerPhase → World × CallerPhase × List Eff
  | CallerPhase.start =>
    let load := loadTokenCacheRun w.file w.mem
    let mem1 := load.1
    if isValidToken dateVal now mem1 then
      (⟨w.file, mem1⟩, CallerPhase.done (Except.ok (mem1.accessToken.getD "")), load.2)
    else if jsTruthy mem1.refreshToken then
      let rt := mem1.refreshToken.getD ""
      (⟨w.file, mem1⟩, CallerPhase.awaiting rt, load.2 ++ [Eff.netRefresh rt])
    else
      (⟨w.file, mem1⟩, CallerPhase.done (Except.error authErrMsg), load.2)
  | CallerPhase.awaiting rt =>
    match acquire rt with
    | RefreshOutcome.success r =>
      let mem2 : TokenCache := ⟨some r.accessToken, jsOr r.refreshToken w.mem.refreshToken,
        r.expiresOn⟩
      (⟨some (renderTokenCache mem2), mem2⟩, CallerPhase.done (Except.ok r.accessToken),
        [Eff.fsWrite])
    | RefreshOutcome.failure _ =>
      (w, CallerPhase.done (Except.error authErrMsg), [])
  | CallerPhase.done res => (w, CallerPhase.done res, [])

/-- Two concurrent callers sharing one world, with the cumulative effect
trace. -/
structure Sys where
  world : World
  c1 : CallerPhase
  c2 : CallerPhase
  trace : List Eff

/-- Run one scheduling step: true steps the first caller, false the
second. -/
def sysStep (dateVal : String → Option Int) (now : Int)
    (acquire : String → RefreshOutcome) (i : Bool) (s : Sys) : Sys :=
  if i then
    let r := stepCaller dateVal now acquire s.world s.c1
    ⟨r.1, r.2.1, s.c2, s.trace ++ r.2.2⟩
  else
    let r := stepCaller dateVal now acquire s.world s.c2
    ⟨r.1, s.c1, r.2.1, s.trace ++ r.2.2⟩

def sysRun (dateVal : String → Option Int) (now : Int)
    (acquire : String → RefreshOutcome) (sched : List Bool) (s : Sys) : Sys :=
  sched.foldl (fun t i => sysStep dateVal now acquire i t) s

def isNetRefresh : Eff → Bool
  | Eff.netRefresh _ => true
  | _ => false

/-- Number of refresh-token exchanges recorded in a trace. -/
def netCount (t : List Eff) : Nat := t.countP isNetRefresh

def startWeight : CallerPhase → Nat
  | CallerPhase.start => 1
  | _ => 0

/-- Each caller issues at most one exchange, in its transition out of the
start phase; this potential bounds the exchanges any schedule can add. -/
def potential (s : Sys) : Nat :=
  netCount s.trace + startWeight s.c1 + startWeight s.c2

theorem netCount_loadEffs (file : Option (List Char)) (mem : TokenCache) :
    netCount (loadTokenCacheRun file mem).2 = 0 := by
  cases file with
  | none => rfl
  | some content =>
    simp only [loadTokenCacheRun]
    cases parseTokenCacheChars content <;> rfl

theorem netCount_append (a b : List Eff) :
    netCount (a ++ b) = netCount a + netCount b := by
  simp [netCount, List.countP_append]

theorem netCount_single_refresh (rt : String) : netCount [Eff.netRefresh rt] = 1 := rfl

theorem netCount_single_write : netCount [Eff.fsWrite] = 0 := rfl

theorem netCount_nil : netCount [] = 0 := rfl

theorem stepCaller_potential (dateVal : String → Option Int) (now : Int)
    (acquire : String → RefreshOutcome) (w : World) (p : CallerPhase) :
    netCount (stepCaller dateVal now acquire w p).2.2 +
      startWeight (stepCaller dateVal now acquire w p).2.1 ≤ startWeight p := by
  cases p with
  | start =>
    have h0 := netCount_loadEffs w.file w.mem
    simp only [stepCaller]
    by_cases hv : isValidToken dateVal now (loadTokenCacheRun w.file w.mem).1
    · simp [hv, startWeight]
      omega
    · by_cases hr : jsTruthy (loadTokenCacheRun w.file w.mem).1.refreshToken
      · simp [hv, hr, startWeight, netCount_append, netCount_single_refresh]
        omega
      · simp [hv, hr, startWeight]
        omega
  | awaiting rt =>
    simp only [stepCaller]
    cases acquire rt with
    | success r => simp [startWeight, netCount_single_write]
    | failure e => simp [startWeight, netCount_nil]
  | done res => simp [stepCaller, startWeight, netCount_nil]

theorem sysStep_potential (dateVal : String → Option Int) (now : Int)
    (acquire : String → RefreshOutcome) (i : Bool) (s : Sys) :
    potential (sysStep dateVal now acquire i s) ≤ potential s := by
  have h1 := stepCaller_potential dateVal now acquire s.world s.c1
  have h2 := stepCaller_potential dateVal now acquire s.world s.c2
  cases i <;> simp [sysStep, potential, netCount_append] <;> omega

theorem sysRun_potential (dateVal : String → Option Int) (now : Int)
    (acquire : String → RefreshOutcome) (sched : List Bool) (s : Sys) :
    potential (sysRun dateVal now acquire sched s) ≤ potential s := by
  induction sched generalizing s with
  | nil => simp [sysRun]
  | cons i rest ih =>
    have h1 := sysStep_potential dateVal now acquire i s
    have h2 := ih (sysStep dateVal now acquire i s)
    simp only [sysRun, List.foldl_cons] at h2 ⊢
    omega

theorem netCount_le_potential (s : Sys) : netCount s.trace ≤ potential s := by
  simp [potential]
  omega

/-! ### Claim theorems -/

/-- C1 counterexample: two getAccessToken calls that both start while the
state is NeedsRefresh (no access token, refresh token present) and
interleave at the await point each issue their own refresh exchange: the
trace records two netRefresh effects, not the exactly one the claim
requires. -/
theorem C1_counterexample :
    netCount (sysRun (fun _ => none) 0
      (fun _ => RefreshOutcome.success ⟨"A2", some "R2", some "E2"⟩)
      [true, false, true, false]
      ⟨⟨none, ⟨none, some "R1", none⟩⟩, CallerPhase.start, CallerPhase.start, []⟩).trace = 2 ∧
    ¬ netCount (sysRun (fun _ => none) 0
      (fun _ => RefreshOutcome.success ⟨"A2", some "R2", some "E2"⟩)
      [true, false, true, false]
      ⟨⟨none, ⟨none, some "R1", none⟩⟩, CallerPhase.start, CallerPhase.start, []⟩).trace = 1 := by
  decide

/-- C1 amended: the code has no mutual exclusion around the refresh
exchange, so two concurrent getAccessToken calls arriving in NeedsRefresh
may each perform their own exchange; every schedule performs at most one
exchange per caller (at most two in total for two callers), and the fully
interleaved schedule reaches that bound. -/
theorem C1_amended :
    (∀ (dateVal : String → Option Int) (now : Int) (acquire : String → RefreshOutcome)
        (sched : List Bool),
      netCount (sysRun dateVal now acquire sched
        ⟨⟨none, ⟨none, some "R1", none⟩⟩, CallerPhase.start, CallerPhase.start, []⟩).trace ≤ 2) ∧
    netCount (sysRun (fun _ => none) 0
      (fun _ => RefreshOutcome.success ⟨"A2", some "R2", some "E2"⟩)
      [true, false, true, false]
      ⟨⟨none, ⟨none, some "R1", none⟩⟩, CallerPhase.start, CallerPhase.start, []⟩).trace = 2 := by
  constructor
  · intro dateVal now acquire sched
    have h1 := sysRun_potential dateVal now acquire sched
      ⟨⟨none, ⟨none, some "R1", none⟩⟩, CallerPhase.start, CallerPhase.start, []⟩
    have h2 := netCount_le_potential (sysRun dateVal now acquire sched
      ⟨⟨none, ⟨none, some "R1", none⟩⟩, CallerPhase.start, CallerPhase.start, []⟩)
    have h3 : potential
        ⟨⟨none, ⟨none, some "R1", none⟩⟩, CallerPhase.start, CallerPhase.start, []⟩ = 2 := rfl
    omega
  · decide

/-- C2: the claim (and the technical reference shipped with the
repository) requires a five minute safety margin before expiry, but the
check at server.js line 77 compares the expiry strictly against now with
no margin: a record with only one minute of validity left is still served
from the cache with no refresh attempt and no network effect. -/
theorem C2_code_ignores_safety_margin :
    getAccessTokenRun (fun s => if s = "E" then some 1060000 else none) 1000000
        (fun _ => RefreshOutcome.failure AcqError.transient)
        ⟨none, ⟨some "A", none, some "E"⟩⟩ =
      (Except.ok "A", ⟨none, ⟨some "A", none, some "E"⟩⟩, [Eff.fsExists]) ∧
    (1060000 - 1000000 : Int) < 5 * 60 * 1000 := by
  decide

/-- C3 counterexample: with an invalid-grant refresh failure the call
fails, but the stored record is unchanged and still holds the refresh
token, and a subsequent getAccessToken performs another refresh exchange
(one netRefresh effect in its trace) instead of failing with no network
call. -/
theorem C3_counterexample :
    (getAccessTokenRun (fun _ => none) 0
        (fun _ => RefreshOutcome.failure AcqError.invalidGrant)
        ⟨none, ⟨none, some "R", none⟩⟩).1 = Except.error authErrMsg ∧
    (getAccessTokenRun (fun _ => none) 0
        (fun _ => RefreshOutcome.failure AcqError.invalidGrant)
        ⟨none, ⟨none, some "R", none⟩⟩).2.1.mem.refreshToken = some "R" ∧
    netCount (getAccessTokenRun (fun _ => none) 0
        (fun _ => RefreshOutcome.failure AcqError.invalidGrant)
        ((getAccessTokenRun (fun _ => none) 0
          (fun _ => RefreshOutcome.failure AcqError.invalidGrant)
          ⟨none, ⟨none, some "R", none⟩⟩).2.1)).2.2 = 1 := by
  decide

/-- C3 amended: when the refresh exchange fails with InvalidGrant,
getAccessToken fails with the generic authentication-required error, but
the record is left unchanged (the refresh token is kept, so the manager
stays in NeedsRefresh rather than Unauthenticated), and a subsequent
getAccessToken call performs the refresh exchange again. -/
theorem C3_amended (dateVal : String → Option Int) (now : Int)
    (acquire : String → RefreshOutcome) (c : TokenCache)
    (hv : isValidToken dateVal now c = false)
    (hr : jsTruthy c.refreshToken = true)
    (hacq : ∀ rt, acquire rt = RefreshOutcome.failure AcqError.invalidGrant) :
    getAccessTokenRun dateVal now acquire ⟨none, c⟩ =
      (Except.error authErrMsg, ⟨none, c⟩,
        [Eff.fsExists, Eff.netRefresh (c.refreshToken.getD "")]) ∧
    netCount (getAccessTokenRun dateVal now acquire
      ((getAccessTokenRun dateVal now acquire ⟨none, c⟩).2.1)).2.2 = 1 := by
  have hstep : getAccessTokenRun dateVal now acquire ⟨none, c⟩ =
      (Except.error authErrMsg, ⟨none, c⟩,
        [Eff.fsExists, Eff.netRefresh (c.refreshToken.getD "")]) := by
    simp [getAccessTokenRun, loadTokenCacheRun, hv, hr, hacq]
  refine ⟨hstep, ?_⟩
  rw [hstep, hstep]
  rfl

/-- C3 witness: the amended statement at a concrete NeedsRefresh record
with an always invalid-grant provider. -/
theorem C3_amended_witness :
    isValidToken (fun _ => none) 0 ⟨none, some "R", none⟩ = false ∧
    jsTruthy (⟨none, some "R", none⟩ : TokenCache).refreshToken = true ∧
    (getAccessTokenRun (fun _ => none) 0
        (fun _ => RefreshOutcome.failure AcqError.invalidGrant)
        ⟨none, ⟨none, some "R", none⟩⟩ =
      (Except.error authErrMsg, ⟨none, ⟨none, some "R", none⟩⟩,
        [Eff.fsExists, Eff.netRefresh "R"]) ∧
    netCount (getAccessTokenRun (fun _ => none) 0
        (fun _ => RefreshOutcome.failure AcqError.invalidGrant)
        ((getAccessTokenRun (fun _ => none) 0
          (fun _ => RefreshOutcome.failure AcqError.invalidGrant)
          ⟨none, ⟨none, some "R", none⟩⟩).2.1)).2.2 = 1) :=
  ⟨by decide, by decide,
    C3_amended (fun _ => none) 0 _ _ (by decide) (by decide) (fun _ => rfl)⟩

/-- C4 counterexample: a transient refresh failure surfaces exactly the
same error value as the fully unauthenticated case; there is no distinct
retryable error. -/
theorem C4_counterexample :
    (getAccessTokenRun (fun _ => none) 0
        (fun _ => RefreshOutcome.failure AcqError.transient)
        ⟨none, ⟨none, some "R", none⟩⟩).1 = Except.error authErrMsg ∧
    (getAccessTokenRun (fun _ => none) 0
        (fun _ => RefreshOutcome.failure AcqError.transient)
        ⟨none, emptyCache⟩).1 = Except.error authErrMsg := by
  decide

/-- C4 amended: on a transient refresh failure getAccessToken fails with
the same generic authentication error used when no credentials exist at
all (no distinct TemporaryAuthFailure), while the record is left
unchanged in NeedsRefresh, so a subsequent call retries the refresh
exchange. -/
theorem C4_amended (dateVal : String → Option Int) (now : Int)
    (acquire : String → RefreshOutcome) (c : TokenCache)
    (hv : isValidToken dateVal now c = false)
    (hr : jsTruthy c.refreshToken = true)
    (hacq : ∀ rt, acquire rt = RefreshOutcome.failure AcqError.transient) :
    getAccessTokenRun dateVal now acquire ⟨none, c⟩ =
      (Except.error authErrMsg, ⟨none, c⟩,
        [Eff.fsExists, Eff.netRefresh (c.refreshToken.getD "")]) ∧
    (getAccessTokenRun dateVal now acquire ⟨none, emptyCache⟩).1 =
      Except.error authErrMsg ∧
    netCount (getAccessTokenRun dateVal now acquire
      ((getAccessTokenRun dateVal now acquire ⟨none, c⟩).2.1)).2.2 = 1 := by
  have hstep : getAccessTokenRun dateVal now acquire ⟨none, c⟩ =
      (Except.error authErrMsg, ⟨none, c⟩,
        [Eff.fsExists, Eff.netRefresh (c.refreshToken.getD "")]) := by
    simp [getAccessTokenRun, loadTokenCacheRun, hv, hr, hacq]
  refine ⟨hstep, ?_, ?_⟩
  · simp [getAccessTokenRun, loadTokenCacheRun, isValidToken, jsTruthy, emptyCache]
  · rw [hstep, hstep]
    rfl

/-- C4 witness: the amended statement at a concrete NeedsRefresh record
with an always transiently failing provider. -/
theorem C4_amended_witness :
    isValidToken (fun _ => none) 0 ⟨none, some "R", none⟩ = false ∧
    jsTruthy (⟨none, some "R", none⟩ : TokenCache).refreshToken = true ∧
    (getAccessTokenRun (fun _ => none) 0
        (fun _ => RefreshOutcome.failure AcqError.transient)
        ⟨none, ⟨none, some "R", none⟩⟩ =
      (Except.error authErrMsg, ⟨none, ⟨none, some "R", none⟩⟩,
        [Eff.fsExists, Eff.netRefresh "R"]) ∧
    (getAccessTokenRun (fun _ => none) 0
        (fun _ => RefreshOutcome.failure AcqError.transient)
        ⟨none, emptyCache⟩).1 = Except.error authErrMsg ∧
    netCount (getAccessTokenRun (fun _ => none) 0
        (fun _ => RefreshOutcome.failure AcqError.transient)
        ((getAccessTokenRun (fun _ => none) 0
          (fun _ => RefreshOutcome.failure AcqError.transient)
          ⟨none, ⟨none, some "R", none⟩⟩).2.1)).2.2 = 1) :=
  ⟨by decide, by decide,
    C4_amended (fun _ => none) 0 _ _ (by decide) (by decide) (fun _ => rfl)⟩

/-- C5 counterexample: with a valid record in memory and on disk, the
fast path still begins with loadTokenCache, so the trace of effects
contains a filesystem read, contradicting the claim of no I/O at all. -/
theorem C5_counterexample :
    (getAccessTokenRun (fun s => if s = "E" then some 2 else none) 1
        (fun _ => RefreshOutcome.failure AcqError.transient)
        ⟨some (renderTokenCache ⟨some "A", none, some "E"⟩),
          ⟨some "A", none, some "E"⟩⟩).2.2 = [Eff.fsExists, Eff.fsRead] ∧
    Eff.fsRead ∈ (getAccessTokenRun (fun s => if s = "E" then some 2 else none) 1
        (fun _ => RefreshOutcome.failure AcqError.transient)
        ⟨some (renderTokenCache ⟨some "A", none, some "E"⟩),
          ⟨some "A", none, some "E"⟩⟩).2.2 ∧
    (getAccessTokenRun (fun s => if s = "E" then some 2 else none) 1
        (fun _ => RefreshOutcome.failure AcqError.transient)
        ⟨some (renderTokenCache ⟨some "A", none, some "E"⟩),
          ⟨some "A", none, some "E"⟩⟩).1 = Except.ok "A" := by
  decide

/-- C5 amended: when the cache file parses to a valid record, the
Authenticated path of getAccessToken makes no network call and no
filesystem write and returns the cached access token, but it first
re-reads the cache file (an existsSync check and a file read) and
replaces the in-memory record with the content of the file. -/
theorem C5_amended (dateVal : String → Option Int) (now : Int)
    (acquire : String → RefreshOutcome) (content : List Char)
    (c : TokenCache) (mem : TokenCache)
    (hparse : parseTokenCacheChars content = some c)
    (hv : isValidToken dateVal now c = true) :
    getAccessTokenRun dateVal now acquire ⟨some content, mem⟩ =
      (Except.ok (c.accessToken.getD ""), ⟨some content, c⟩,
        [Eff.fsExists, Eff.fsRead]) := by
  simp [getAccessTokenRun, loadTokenCacheRun, hparse, hv]

/-- C5 witness: the amended statement at a concrete valid record stored
in the cache file next to a different in-memory record. -/
theorem C5_amended_witness :
    parseTokenCacheChars (renderTokenCache ⟨some "A", none, some "E"⟩) =
      some ⟨some "A", none, some "E"⟩ ∧
    isValidToken (fun s => if s = "E" then some 2 else none) 1
      ⟨some "A", none, some "E"⟩ = true ∧
    getAccessTokenRun (fun s => if s = "E" then some 2 else none) 1
        (fun _ => RefreshOutcome.failure AcqError.transient)
        ⟨some (renderTokenCache ⟨some "A", none, some "E"⟩), emptyCache⟩ =
      (Except.ok "A",
        ⟨some (renderTokenCache ⟨some "A", none, some "E"⟩), ⟨some "A", none, some "E"⟩⟩,
        [Eff.fsExists, Eff.fsRead]) :=
  ⟨by decide, by decide,
    C5_amended (fun s => if s = "E" then some 2 else none) 1
      (fun _ => RefreshOutcome.failure AcqError.transient)
      (renderTokenCache ⟨some "A", none, some "E"⟩)
      ⟨some "A", none, some "E"⟩ emptyCache (by decide) (by decide)⟩

/-- C6: after a successful refresh exchange the stored record is rebuilt
wholesale from the exchange result: the access token and expiry come from
the result unconditionally, a truthy result refreshToken replaces the old
one (making the new record independent of the prior record), and only
when the result carries no refreshToken is the previous refreshToken
retained; the rebuilt record is also what gets persisted. -/
theorem C6_refresh_replaces_record (dateVal : String → Option Int) (now : Int)
    (c : TokenCache) (r : AuthResult)
    (hv : isValidToken dateVal now c = false)
    (hr : jsTruthy c.refreshToken = true) :
    (getAccessTokenRun dateVal now (fun _ => RefreshOutcome.success r) ⟨none, c⟩).1 =
      Except.ok r.accessToken ∧
    (jsTruthy r.refreshToken = true →
      (getAccessTokenRun dateVal now (fun _ => RefreshOutcome.success r) ⟨none, c⟩).2.1.mem =
        ⟨some r.accessToken, r.refreshToken, r.expiresOn⟩) ∧
    (r.refreshToken = none →
      (getAccessTokenRun dateVal now (fun _ => RefreshOutcome.success r) ⟨none, c⟩).2.1.mem =
        ⟨some r.accessToken, c.refreshToken, r.expiresOn⟩) ∧
    (getAccessTokenRun dateVal now (fun _ => RefreshOutcome.success r) ⟨none, c⟩).2.1.file =
      some (renderTokenCache
        ((getAccessTokenRun dateVal now (fun _ => RefreshOutcome.success r) ⟨none, c⟩).2.1.mem)) := by
  have hstep : getAccessTokenRun dateVal now (fun _ => RefreshOutcome.success r) ⟨none, c⟩ =
      (Except.ok r.accessToken,
        ⟨some (renderTokenCache
            ⟨some r.accessToken, jsOr r.refreshToken c.refreshToken, r.expiresOn⟩),
          ⟨some r.accessToken, jsOr r.refreshToken c.refreshToken, r.expiresOn⟩⟩,
        [Eff.fsExists, Eff.netRefresh (c.refreshToken.getD ""), Eff.fsWrite]) := by
    simp [getAccessTokenRun, loadTokenCacheRun, hv, hr]
  rw [hstep]
  refine ⟨rfl, ?_, ?_, rfl⟩
  · intro ht
    simp [jsOr, ht]
  · intro hn
    simp [jsOr, hn, jsTruthy]

/-- C6 witness: a refresh response that omits the refreshToken leaves the
previously stored refresh token in the new record. -/
theorem C6_refresh_replaces_record_witness :
    isValidToken (fun _ => none) 0 ⟨none, some "Rold", none⟩ = false ∧
    jsTruthy (⟨none, some "Rold", none⟩ : TokenCache).refreshToken = true ∧
    ((getAccessTokenRun (fun _ => none) 0
        (fun _ => RefreshOutcome.success ⟨"A2", none, some "E2"⟩)
        ⟨none, ⟨none, some "Rold", none⟩⟩).1 = Except.ok "A2" ∧
    (jsTruthy (none : Option String) = true →
      (getAccessTokenRun (fun _ => none) 0
        (fun _ => RefreshOutcome.success ⟨"A2", none, some "E2"⟩)
        ⟨none, ⟨none, some "Rold", none⟩⟩).2.1.mem = ⟨some "A2", none, some "E2"⟩) ∧
    ((none : Option String) = none →
      (getAccessTokenRun (fun _ => none) 0
        (fun _ => RefreshOutcome.success ⟨"A2", none, some "E2"⟩)
        ⟨none, ⟨none, some "Rold", none⟩⟩).2.1.mem = ⟨some "A2", some "Rold", some "E2"⟩) ∧
    (getAccessTokenRun (fun _ => none) 0
        (fun _ => RefreshOutcome.success ⟨"A2", none, some "E2"⟩)
        ⟨none, ⟨none, some "Rold", none⟩⟩).2.1.file =
      some (renderTokenCache
        ((getAccessTokenRun (fun _ => none) 0
          (fun _ => RefreshOutcome.success ⟨"A2", none, some "E2"⟩)
          ⟨none, ⟨none, some "Rold", none⟩⟩).2.1.mem))) := by
  refine ⟨by decide, by decide, ?_⟩
  have h := C6_refresh_replaces_record (fun _ => none) 0
    ⟨none, some "Rold", none⟩ ⟨"A2", none, some "E2"⟩ (by decide) (by decide)
  exact ⟨h.1, h.2.1, h.2.2.1, h.2.2.2⟩

/-- C7: content that does not parse is caught, not thrown: loading leaves
the in-memory record exactly as an absent file would, and a fresh process
(whose in-memory record is the empty object) started against a corrupted
cache file fails getAccessToken with the authentication-required error,
exactly as when the file is absent. -/
theorem C7_corrupt_cache_tolerated (content : List Char)
    (dateVal : String → Option Int) (now : Int)
    (acquire : String → RefreshOutcome) (mem : TokenCache)
    (hparse : parseTokenCacheChars content = none) :
    loadTokenCacheRun (some content) mem = (mem, [Eff.fsExists, Eff.fsRead]) ∧
    (loadTokenCacheRun (some content) mem).1 = (loadTokenCacheRun none mem).1 ∧
    (getAccessTokenRun dateVal now acquire ⟨some content, emptyCache⟩).1 =
      Except.error authErrMsg ∧
    (getAccessTokenRun dateVal now acquire ⟨some content, emptyCache⟩).1 =
      (getAccessTokenRun dateVal now acquire ⟨none, emptyCache⟩).1 := by
  refine ⟨by simp [loadTokenCacheRun, hparse], by simp [loadTokenCacheRun, hparse], ?_, ?_⟩
  · simp [getAccessTokenRun, loadTokenCacheRun, hparse, isValidToken, jsTruthy, emptyCache]
  · simp [getAccessTokenRun, loadTokenCacheRun, hparse, isValidToken, jsTruthy, emptyCache]

/-- C7 witness: a concrete non-JSON cache file content. -/
theorem C7_corrupt_cache_tolerated_witness :
    parseTokenCacheChars ("this is not json".data) = none ∧
    (loadTokenCacheRun (some ("this is not json".data)) ⟨some "A", none, some "E"⟩ =
        (⟨some "A", none, some "E"⟩, [Eff.fsExists, Eff.fsRead]) ∧
    (loadTokenCacheRun (some ("this is not json".data)) ⟨some "A", none, some "E"⟩).1 =
      (loadTokenCacheRun none ⟨some "A", none, some "E"⟩).1 ∧
    (getAccessTokenRun (fun _ => none) 0
        (fun _ => RefreshOutcome.failure AcqError.transient)
        ⟨some ("this is not json".data), emptyCache⟩).1 = Except.error authErrMsg ∧
    (getAccessTokenRun (fun _ => none) 0
        (fun _ => RefreshOutcome.failure AcqError.transient)
        ⟨some ("this is not json".data), emptyCache⟩).1 =
      (getAccessTokenRun (fun _ => none) 0
        (fun _ => RefreshOutcome.failure AcqError.transient)
        ⟨none, emptyCache⟩).1) :=
  ⟨by decide,
    C7_corrupt_cache_tolerated ("this is not json".data) (fun _ => none) 0
      (fun _ => RefreshOutcome.failure AcqError.transient)
      ⟨some "A", none, some "E"⟩ (by decide)⟩

/-- C8: saving any record (including the all-absent one) and loading the
written file yields exactly the saved record, field by field, whatever
the in-memory record was before the load. -/
theorem C8_save_load_roundtrip (c : TokenCache) (mem : TokenCache) :
    (loadTokenCacheRun (saveTokenCacheRun c).1 mem).1 = c := by
  simp [saveTokenCacheRun, loadTokenCacheRun, parse_render]

/-- C9: a cache file that fails to parse leaves the previous in-memory
record untouched, so a valid token already held in memory is still
returned by getAccessToken after the on-disk file is corrupted. -/
theorem C9_parse_failure_keeps_memory (content : List Char)
    (dateVal : String → Option Int) (now : Int)
    (acquire : String → RefreshOutcome) (mem : TokenCache)
    (hparse : parseTokenCacheChars content = none)
    (hv : isValidToken dateVal now mem = true) :
    (loadTokenCacheRun (some content) mem).1 = mem ∧
    getAccessTokenRun dateVal now acquire ⟨some content, mem⟩ =
      (Except.ok (mem.accessToken.getD ""), ⟨some content, mem⟩,
        [Eff.fsExists, Eff.fsRead]) := by
  constructor
  · simp [loadTokenCacheRun, hparse]
  · simp [getAccessTokenRun, loadTokenCacheRun, hparse, hv]

/-- C9 witness: a valid in-memory token keeps being served after the file
becomes garbage. -/
theorem C9_parse_failure_keeps_memory_witness :
    parseTokenCacheChars ("corrupted!!".data) = none ∧
    isValidToken (fun s => if s = "E" then some 2 else none) 1
      ⟨some "A", none, some "E"⟩ = true ∧
    ((loadTokenCacheRun (some ("corrupted!!".data)) ⟨some "A", none, some "E"⟩).1 =
        ⟨some "A", none, some "E"⟩ ∧
    getAccessTokenRun (fun s => if s = "E" then some 2 else none) 1
        (fun _ => RefreshOutcome.failure AcqError.transient)
        ⟨some ("corrupted!!".data), ⟨some "A", none, some "E"⟩⟩ =
      (Except.ok "A", ⟨some ("corrupted!!".data), ⟨some "A", none, some "E"⟩⟩,
        [Eff.fsExists, Eff.fsRead])) :=
  ⟨by decide, by decide,
    C9_parse_failure_keeps_memory ("corrupted!!".data)
      (fun s => if s = "E" then some 2 else none) 1
      (fun _ => RefreshOutcome.failure AcqError.transient)
      ⟨some "A", none, some "E"⟩ (by decide) (by decide)⟩

/-- C10: a successful authorization-code exchange overwrites the whole
record with exactly the fields of the exchange result — independently of
whatever was stored before — with no carry-forward: a result without a
refreshToken leaves the stored refreshToken absent even when a previous
one existed; the same record is persisted. -/
theorem C10_auth_code_overwrites (acquireByCode : String → CodeOutcome)
    (code : String) (r : AuthResult) (w1 w2 : World)
    (hc : acquireByCode code = CodeOutcome.success r) :
    (outlookAuthCodeRun acquireByCode code w1).2.1.mem =
      ⟨some r.accessToken, r.refreshToken, r.expiresOn⟩ ∧
    (r.refreshToken = none →
      (outlookAuthCodeRun acquireByCode code w1).2.1.mem.refreshToken = none) ∧
    (outlookAuthCodeRun acquireByCode code w1).2.1 =
      (outlookAuthCodeRun acquireByCode code w2).2.1 ∧
    (outlookAuthCodeRun acquireByCode code w1).2.1.file =
      some (renderTokenCache ⟨some r.accessToken, r.refreshToken, r.expiresOn⟩) := by
  refine ⟨by simp [outlookAuthCodeRun, hc], ?_, by simp [outlookAuthCodeRun, hc],
    by simp [outlookAuthCodeRun, hc]⟩
  intro hn
  simp [outlookAuthCodeRun, hc, hn]

/-- C10 witness: a code exchange response without a refreshToken erases
the previously stored refresh token. -/
theorem C10_auth_code_overwrites_witness :
    (fun (_ : String) => CodeOutcome.success (⟨"Anew", none, some "Enew"⟩ : AuthResult)) "code" =
      CodeOutcome.success ⟨"Anew", none, some "Enew"⟩ ∧
    ((outlookAuthCodeRun (fun _ => CodeOutcome.success ⟨"Anew", none, some "Enew"⟩) "code"
        ⟨none, ⟨some "Aold", some "Rold", some "Eold"⟩⟩).2.1.mem =
      ⟨some "Anew", none, some "Enew"⟩ ∧
    ((none : Option String) = none →
      (outlookAuthCodeRun (fun _ => CodeOutcome.success ⟨"Anew", none, some "Enew"⟩) "code"
        ⟨none, ⟨some "Aold", some "Rold", some "Eold"⟩⟩).2.1.mem.refreshToken = none) ∧
    (outlookAuthCodeRun (fun _ => CodeOutcome.success ⟨"Anew", none, some "Enew"⟩) "code"
        ⟨none, ⟨some "Aold", some "Rold", some "Eold"⟩⟩).2.1 =
      (outlookAuthCodeRun (fun _ => CodeOutcome.success ⟨"Anew", none, some "Enew"⟩) "code"
        ⟨some [], emptyCache⟩).2.1 ∧
    (outlookAuthCodeRun (fun _ => CodeOutcome.success ⟨"Anew", none, some "Enew"⟩) "code"
        ⟨none, ⟨some "Aold", some "Rold", some "Eold"⟩⟩).2.1.file =
      some (renderTokenCache ⟨some "Anew", none, some "Enew"⟩)) :=
  ⟨rfl,
    C10_auth_code_overwrites (fun _ => CodeOutcome.success ⟨"Anew", none, some "Enew"⟩)
      "code" ⟨"Anew", none, some "Enew"⟩
      ⟨none, ⟨some "Aold", some "Rold", some "Eold"⟩⟩ ⟨some [], emptyCache⟩ rfl⟩

end OutlookMcp
